import Mathlib

/-!
Verification of the redd-archiver ingestion pipeline.

This file gives a shallow embedding, in Lean 4, of the parts of the
repository that the specification's testable claims are about:

* `src/core/importers/voat_sql_parser.py` — the `VoatSQLParser` class:
  the `_parse_value` / `_parse_values_tuple` state machine,
  `_quick_extract_field`, and the `stream_rows` line loop.
* `src/core/watchful.py` — `read_and_decode` and `read_lines_zst`.
* `src/processing/batch_processing_utils.py` — `BatchProcessor`
  (`_calculate_optimal_batch_size`, `process_batches`).

Python strings are modelled as `List Char` (a Python `str` is a sequence
of code points).  Python floats are modelled over `ℚ` plus explicit
infinity/NaN markers; none of the proved properties compares float
values, only the success/failure of conversions and the control flow
around them.  String helpers (`strip`, `upper`, `lower`, `int()`,
`float()`) are modelled for the ASCII range, which covers the SQL-dump
domain the parser was written for.
-/

namespace ReddArchiver

/-- A parsed SQL value: Python `None`, `int`, `float` or `str`
(the result type of `VoatSQLParser._parse_value`). -/
inductive PyFloat where
  | finite (q : ℚ)
  | infinity (neg : Bool)
  | nan
  deriving DecidableEq, Repr

inductive SqlValue where
  | null
  | intV (n : ℤ)
  | floatV (x : PyFloat)
  | strV (s : List Char)
  deriving DecidableEq, Repr

/-- Python truthiness of the values `_parse_value` can produce:
`None`, `0`, `0.0` and the empty string are falsy. -/
def SqlValue.truthy : SqlValue → Bool
  | .null => false
  | .intV n => n != 0
  | .floatV x => x != .finite 0
  | .strV s => s != []

/-- ASCII whitespace stripped by Python `str.strip()`. -/
def isPySpace (c : Char) : Bool :=
  c = ' ' || c = '\t' || c = '\n' || c = '\r' || c = '\x0b' || c = '\x0c'

/-- Python `str.strip()` (ASCII whitespace). -/
def pyStrip (s : List Char) : List Char :=
  ((s.dropWhile isPySpace).reverse.dropWhile isPySpace).reverse

/-- Python `str.upper()` (ASCII). -/
def pyUpper (s : List Char) : List Char := s.map Char.toUpper

/-- Python `str.lower()` (ASCII). -/
def pyLower (s : List Char) : List Char := s.map Char.toLower

/-- Digit value of an ASCII digit. -/
def digitVal (c : Char) : ℕ := c.toNat - 48

/-- Tail of Python's `digitpart` grammar: after a first digit, digits
optionally separated by single underscores (`digit (["_"] digit)*`). -/
def digitTail (acc : ℕ) : List Char → Option ℕ
  | [] => some acc
  | '_' :: c :: rest =>
      if c.isDigit then digitTail (acc * 10 + digitVal c) rest else none
  | '_' :: [] => none
  | c :: rest =>
      if c.isDigit then digitTail (acc * 10 + digitVal c) rest else none

/-- Python `digitpart`: a non-empty digit string with optional single
underscores between digits. -/
def digitPart : List Char → Option ℕ
  | [] => none
  | c :: rest => if c.isDigit then digitTail (digitVal c) rest else none

/-- Python `int(s)` on a string: surrounding whitespace, an optional
sign, then a `digitpart`.  Returns `none` where Python raises
`ValueError`. -/
def pyIntOfString (s : List Char) : Option ℤ :=
  match pyStrip s with
  | '+' :: rest => (digitPart rest).map (fun n => (n : ℤ))
  | '-' :: rest => (digitPart rest).map (fun n => -(n : ℤ))
  | t => (digitPart t).map (fun n => (n : ℤ))

/-- `digitpart` with its underscores removed and value read as the
fractional digits of a decimal: returns `(value, number of digits)`. -/
def fracDigits (acc : ℕ) (len : ℕ) : List Char → Option (ℕ × ℕ)
  | [] => some (acc, len)
  | '_' :: c :: rest =>
      if c.isDigit then fracDigits (acc * 10 + digitVal c) (len + 1) rest else none
  | '_' :: [] => none
  | c :: rest =>
      if c.isDigit then fracDigits (acc * 10 + digitVal c) (len + 1) rest else none

/-- Split a float literal at the exponent marker `e`/`E`. -/
def splitExp (s : List Char) : List Char × Option (List Char) :=
  match s.findIdx? (fun c => c = 'e' || c = 'E') with
  | none => (s, none)
  | some i => (s.take i, some (s.drop (i + 1)))

/-- Split a float mantissa at the decimal point. -/
def splitDot (s : List Char) : List Char × Option (List Char) :=
  match s.findIdx? (fun c => c = '.') with
  | none => (s, none)
  | some i => (s.take i, some (s.drop (i + 1)))

/-- Parse a signed `digitpart` (used for float exponents). -/
def signedDigitPart (s : List Char) : Option ℤ :=
  match s with
  | '+' :: rest => (digitPart rest).map (fun n => (n : ℤ))
  | '-' :: rest => (digitPart rest).map (fun n => -(n : ℤ))
  | t => (digitPart t).map (fun n => (n : ℤ))

/-- Parse the unsigned numeric body of a Python float literal:
`digitpart [. [digitpart]] [exp]` or `. digitpart [exp]`. -/
def floatBody (s : List Char) : Option ℚ :=
  let (mant, expPart) := splitExp s
  let expVal : Option ℤ :=
    match expPart with
    | none => some 0
    | some e => signedDigitPart e
  match expVal with
  | none => none
  | some ex =>
    let (intPart, dotPart) := splitDot mant
    let intVal : Option ℕ :=
      match intPart, dotPart with
      | [], some _ => some 0
      | l, _ => digitPart l
    let fracVal : Option (ℕ × ℕ) :=
      match dotPart with
      | none => some (0, 0)
      | some [] => if intPart = [] then none else some (0, 0)
      | some f => fracDigits 0 0 f
    match intVal, fracVal with
    | some iv, some (fv, fl) =>
        some (((iv : ℚ) + (fv : ℚ) / (10 : ℚ) ^ fl) * (10 : ℚ) ^ ex)
    | _, _ => none

/-- Python `float(s)`: surrounding whitespace, optional sign, then
either `inf`/`infinity`/`nan` (case-insensitive) or a numeric literal.
Returns `none` where Python raises `ValueError`. -/
def pyFloatOfString (s : List Char) : Option PyFloat :=
  let t := pyStrip s
  let (neg, body) :=
    match t with
    | '+' :: rest => (false, rest)
    | '-' :: rest => (true, rest)
    | rest => (false, rest)
  let low := pyLower body
  if low = [ 'i', 'n', 'f' ] || low = [ 'i', 'n', 'f', 'i', 'n', 'i', 't', 'y' ] then
    some (.infinity neg)
  else if low = [ 'n', 'a', 'n' ] then
    some .nan
  else
    (floatBody body).map (fun q => .finite (if neg then -q else q))

/-- `VoatSQLParser._parse_value` (voat_sql_parser.py lines 466-498):
the `NULL` keyword (case-insensitive) becomes `None`; an empty unquoted
token becomes `None`; otherwise try `int`, then `float`, else keep the
raw text. -/
def parse_value (value : List Char) (was_quoted : Bool) : SqlValue :=
  if pyUpper value = [ 'N', 'U', 'L', 'L' ] then .null
  else if value = [] && !was_quoted then .null
  else
    match pyIntOfString value with
    | some n => .intV n
    | none =>
      match pyFloatOfString value with
      | some x => .floatV x
      | none => .strV value

/-- `VoatSQLParser.ESCAPE_MAP` lookup with the `dict.get(char, char)`
default (voat_sql_parser.py lines 87-96 and 429). -/
def escapeMapGet (c : Char) : Char :=
  if c = '\'' then '\''
  else if c = '\\' then '\\'
  else if c = 'r' then '\r'
  else if c = 'n' then '\n'
  else if c = 't' then '\t'
  else if c = '0' then '\x00'
  else if c = 'b' then '\x08'
  else if c = 'Z' then '\x1a'
  else c

/-- States of the `_parse_values_tuple` state machine. -/
inductive TState where
  | outside
  | inString
  | escape
  deriving DecidableEq, Repr

/-- The character loop of `VoatSQLParser._parse_values_tuple`
(voat_sql_parser.py lines 424-464).  `i` is the current index into the
original text and `rest` the characters from `i` on; the loop returns
the parsed values and the end position (`i + 1` after the closing
parenthesis, or the text length if the text runs out). -/
def tupleLoop (state : TState) (was_quoted : Bool) (current : List Char)
    (values : List SqlValue) (i : ℕ) : List Char → List SqlValue × ℕ
  | [] => (values, i)
  | '\\' :: rest =>
    match state with
    | .escape => tupleLoop .inString was_quoted (current ++ [escapeMapGet '\\']) values (i + 1) rest
    | .inString => tupleLoop .escape was_quoted current values (i + 1) rest
    | .outside => tupleLoop .outside was_quoted (current ++ [ '\\' ]) values (i + 1) rest
  | '\'' :: '\'' :: rest2 =>
    match state with
    | .escape =>
        tupleLoop .inString was_quoted (current ++ [escapeMapGet '\'']) values (i + 1) ( '\'' :: rest2)
    | .inString =>
        tupleLoop .inString was_quoted (current ++ [ '\'' ]) values (i + 2) rest2
    | .outside =>
        tupleLoop .inString true current values (i + 1) ( '\'' :: rest2)
  | '\'' :: rest =>
    match state with
    | .escape => tupleLoop .inString was_quoted (current ++ [escapeMapGet '\'']) values (i + 1) rest
    | .inString => tupleLoop .outside was_quoted current values (i + 1) rest
    | .outside => tupleLoop .inString true current values (i + 1) rest
  | c :: rest =>
    match state with
    | .escape => tupleLoop .inString was_quoted (current ++ [escapeMapGet c]) values (i + 1) rest
    | .inString => tupleLoop .inString was_quoted (current ++ [c]) values (i + 1) rest
    | .outside =>
      if c = ',' then
        tupleLoop .outside false [] (values ++ [parse_value (pyStrip current) was_quoted]) (i + 1) rest
      else if c = ')' then
        (values ++ [parse_value (pyStrip current) was_quoted], i + 1)
      else
        tupleLoop .outside was_quoted (current ++ [c]) values (i + 1) rest

/-- `VoatSQLParser._parse_values_tuple`: parse one VALUES tuple of
`text` starting at the opening parenthesis at index `start`. -/
def parse_values_tuple (text : List Char) (start : ℕ) : List SqlValue × ℕ :=
  tupleLoop .outside false [] [] (start + 1) (text.drop (start + 1))

/-! ### Escaped string fragments (for claim C1)

An escaped string body is a list of items: a plain character, a
backslash escape `\c`, or the doubled-quote escape.  `escRender` is the
escaped source text, `escDenote` the literal characters the escapes
denote. -/

inductive EscItem where
  | raw (c : Char)
  | esc (c : Char)
  | dq
  deriving DecidableEq, Repr

/-- The escaped source text of one item. -/
def escRender : EscItem → List Char
  | .raw c => [c]
  | .esc c => [ '\\', c ]
  | .dq => [ '\'', '\'' ]

/-- The literal characters one item denotes. -/
def escDenote : EscItem → List Char
  | .raw c => [c]
  | .esc c => [escapeMapGet c]
  | .dq => [ '\'' ]

/-- A plain character inside a string must not itself be a quote or a
backslash (those are written escaped). -/
def escValid : EscItem → Bool
  | .raw c => c ≠ '\'' && c ≠ '\\'
  | .esc _ => true
  | .dq => true

def escRenderList (items : List EscItem) : List Char := (items.map escRender).flatten

def escDenoteList (items : List EscItem) : List Char := (items.map escDenote).flatten

/-- In the ESCAPE state the next character is always mapped through the
escape table and appended, returning to IN_STRING. -/
lemma tupleLoop_escape_step (wq : Bool) (cur : List Char) (vals : List SqlValue)
    (i : ℕ) (c : Char) (rest : List Char) :
    tupleLoop .escape wq cur vals i (c :: rest) =
      tupleLoop .inString wq (cur ++ [escapeMapGet c]) vals (i + 1) rest := by
  by_cases h1 : c = '\\'
  · subst h1; simp [tupleLoop]
  · by_cases h2 : c = '\''
    · subst h2
      cases rest with
      | nil => simp [tupleLoop]
      | cons c2 r =>
        by_cases h3 : c2 = '\''
        · subst h3; simp [tupleLoop]
        · simp [tupleLoop, h3]
    · cases rest with
      | nil => simp [tupleLoop, h1, h2]
      | cons c2 r =>
        by_cases h3 : c2 = '\''
        · subst h3; simp [tupleLoop, h1, h2]
        · simp [tupleLoop, h1, h2, h3]

/-- A quote seen from OUTSIDE always enters IN_STRING and marks the
value quoted. -/
lemma tupleLoop_outside_quote (wq : Bool) (cur : List Char) (vals : List SqlValue)
    (i : ℕ) (rest : List Char) :
    tupleLoop .outside wq cur vals i ( '\'' :: rest) =
      tupleLoop .inString true cur vals (i + 1) rest := by
  cases rest with
  | nil => simp [tupleLoop]
  | cons c2 r =>
    by_cases h3 : c2 = '\''
    · subst h3; simp [tupleLoop]
    · simp [tupleLoop, h3]

/-- An ordinary character in IN_STRING is appended verbatim. -/
lemma tupleLoop_inString_plain (wq : Bool) (cur : List Char) (vals : List SqlValue)
    (i : ℕ) (c : Char) (rest : List Char) (h1 : c ≠ '\\') (h2 : c ≠ '\'') :
    tupleLoop .inString wq cur vals i (c :: rest) =
      tupleLoop .inString wq (cur ++ [c]) vals (i + 1) rest := by
  cases rest with
  | nil => simp [tupleLoop, h1, h2]
  | cons c2 r =>
    by_cases h3 : c2 = '\''
    · subst h3; simp [tupleLoop, h1, h2]
    · simp [tupleLoop, h1, h2, h3]

/-- Running the IN_STRING machine over an escaped body followed by the
closing quote and the tuple's closing parenthesis accumulates exactly
the denoted literal characters, then converts the stripped token. -/
lemma tupleLoop_escaped_body (items : List EscItem) (h : ∀ it ∈ items, escValid it)
    (wq : Bool) (cur : List Char) (vals : List SqlValue) (i : ℕ) :
    tupleLoop .inString wq cur vals i (escRenderList items ++ [ '\'', ')' ]) =
      (vals ++ [parse_value (pyStrip (cur ++ escDenoteList items)) wq],
        i + (escRenderList items).length + 2) := by
  induction items generalizing cur i with
  | nil =>
    simp [escRenderList, escDenoteList, tupleLoop]
  | cons it rest ih =>
    have hit : escValid it := h it (List.mem_cons_self it rest)
    have hrest : ∀ x ∈ rest, escValid x := fun x hx => h x (List.mem_cons_of_mem it hx)
    cases it with
    | raw c =>
      simp only [escValid, Bool.and_eq_true, decide_eq_true_eq] at hit
      have hrender : escRenderList (.raw c :: rest) = c :: escRenderList rest := by
        simp [escRenderList, escRender]
      rw [hrender]
      rw [List.cons_append, tupleLoop_inString_plain wq cur vals i c _ hit.2 hit.1]
      rw [ih hrest]
      simp only [Prod.mk.injEq]
      refine ⟨?_, ?_⟩
      · simp [escDenoteList, escDenote, List.append_assoc]
      · simp only [escRenderList, escRender, List.map_cons, List.flatten_cons,
          List.length_append, List.length_cons, List.length_nil]
        omega
    | esc c =>
      have hrender : escRenderList (.esc c :: rest) = '\\' :: c :: escRenderList rest := by
        simp [escRenderList, escRender]
      rw [hrender]
      have hstep1 : tupleLoop .inString wq cur vals i ( '\\' :: c :: (escRenderList rest ++ [ '\'', ')' ])) =
          tupleLoop .escape wq cur vals (i + 1) (c :: (escRenderList rest ++ [ '\'', ')' ])) := by
        simp [tupleLoop]
      rw [List.cons_append, List.cons_append, hstep1, tupleLoop_escape_step]
      rw [ih hrest]
      simp only [Prod.mk.injEq]
      refine ⟨?_, ?_⟩
      · simp [escDenoteList, escDenote, List.append_assoc]
      · simp only [escRenderList, escRender, List.map_cons, List.flatten_cons,
          List.length_append, List.length_cons, List.length_nil]
        omega
    | dq =>
      have hrender : escRenderList (.dq :: rest) = '\'' :: '\'' :: escRenderList rest := by
        simp [escRenderList, escRender]
      rw [hrender]
      have hstep : tupleLoop .inString wq cur vals i ( '\'' :: '\'' :: (escRenderList rest ++ [ '\'', ')' ])) =
          tupleLoop .inString wq (cur ++ [ '\'' ]) vals (i + 2) (escRenderList rest ++ [ '\'', ')' ]) := by
        simp [tupleLoop]
      rw [List.cons_append, List.cons_append, hstep]
      rw [ih hrest]
      simp only [Prod.mk.injEq]
      refine ⟨?_, ?_⟩
      · simp [escDenoteList, escDenote, List.append_assoc]
      · simp only [escRenderList, escRender, List.map_cons, List.flatten_cons,
          List.length_append, List.length_cons, List.length_nil]
        omega

/-- C1 (counterexample): the claim's round-trip law fails as stated.
The tuple `('\n')` contains the escape `\n`, whose unescaped literal is
the one-character string `"\n"`, but `_parse_values_tuple` strips the
decoded token before conversion, so the stored value is the empty
string, not `"\n"`. -/
theorem C1_roundtrip_counterexample :
    parse_values_tuple "('\\n')".toList 0 = ([SqlValue.strV []], 6) ∧
      SqlValue.strV [] ≠ SqlValue.strV [ '\n' ] := by
  constructor
  · decide
  · decide

/-- C1 (amended): for every string value written with the fixed escape
table and/or doubled-quote escapes, the state machine decodes each
escape to its literal character — the decoded token equals the
unescaped literal exactly — and the stored value is that literal with
leading/trailing whitespace stripped, then converted by
`_parse_value`. -/
theorem C1_escape_roundtrip (items : List EscItem) (h : ∀ it ∈ items, escValid it) :
    parse_values_tuple ( '(' :: '\'' :: (escRenderList items ++ [ '\'', ')' ])) 0 =
      ([parse_value (pyStrip (escDenoteList items)) true],
        (escRenderList items).length + 4) := by
  unfold parse_values_tuple
  simp only [List.drop_succ_cons, List.drop_zero]
  rw [tupleLoop_outside_quote, tupleLoop_escaped_body items h]
  simp only [Prod.mk.injEq]
  refine ⟨by simp, by omega⟩

/-- C1 witness: a concrete escaped body `\'a''\\` decodes to `'a'\`. -/
theorem C1_escape_roundtrip_witness :
    parse_values_tuple ( '(' :: '\'' ::
        (escRenderList [EscItem.esc '\'', EscItem.raw 'a', EscItem.dq, EscItem.esc '\\'] ++
          [ '\'', ')' ])) 0 =
      ([parse_value (pyStrip (escDenoteList
          [EscItem.esc '\'', EscItem.raw 'a', EscItem.dq, EscItem.esc '\\'])) true],
        (escRenderList [EscItem.esc '\'', EscItem.raw 'a', EscItem.dq, EscItem.esc '\\']).length + 4) :=
  C1_escape_roundtrip [EscItem.esc '\'', EscItem.raw 'a', EscItem.dq, EscItem.esc '\\'] (by decide)

/-! ### Claim C2: field conversion -/

/-- C2, modelled from the spec sentence as written: an unquoted `NULL`
keyword converts to null, an unquoted empty token to null, a quoted
empty token to the empty string, and any other token tries integer,
then float, else raw text. -/
def parse_value_spec_C2 (value : List Char) (was_quoted : Bool) : SqlValue :=
  if !was_quoted && pyUpper value = [ 'N', 'U', 'L', 'L' ] then .null
  else if !was_quoted && value = [] then .null
  else if was_quoted && value = [] then .strV []
  else
    match pyIntOfString value with
    | some n => .intV n
    | none =>
      match pyFloatOfString value with
      | some x => .floatV x
      | none => .strV value

/-- C2 (counterexample): on the quoted token `'NULL'` the code returns
null while the claim's conversion rule keeps the raw text, because
`_parse_value` tests the `NULL` keyword before looking at the quoting
flag. -/
theorem C2_field_conversion_counterexample :
    parse_value "NULL".toList true = SqlValue.null ∧
      parse_value_spec_C2 "NULL".toList true = SqlValue.strV "NULL".toList ∧
      parse_value "NULL".toList true ≠ parse_value_spec_C2 "NULL".toList true := by
  refine ⟨by decide, by decide, by decide⟩

/-- C2, amended: the `NULL` keyword converts to null regardless of
quoting; otherwise as claimed. -/
def parse_value_amended_C2 (value : List Char) (was_quoted : Bool) : SqlValue :=
  if pyUpper value = [ 'N', 'U', 'L', 'L' ] then .null
  else if value = [] then (if was_quoted then .strV [] else .null)
  else
    match pyIntOfString value with
    | some n => .intV n
    | none =>
      match pyFloatOfString value with
      | some x => .floatV x
      | none => .strV value

/-- C2 (amended): `(1,'hello',NULL)` parses to `[1, "hello", None]` and
`(NULL,'',1)` to `[None, "", 1]` — NULL keyword and quoted empty string
stay distinct — and in general `_parse_value` converts a token by the
fixed order: NULL keyword (quoted or not) → null; empty token → null if
unquoted, `""` if quoted; else try integer, then float, else raw
text. -/
theorem C2_field_conversion :
    parse_values_tuple "(1,'hello',NULL)".toList 0 =
        ([SqlValue.intV 1, SqlValue.strV "hello".toList, SqlValue.null], 16) ∧
      parse_values_tuple "(NULL,'',1)".toList 0 =
        ([SqlValue.null, SqlValue.strV [], SqlValue.intV 1], 11) ∧
      ∀ (v : List Char) (q : Bool), parse_value v q = parse_value_amended_C2 v q := by
  refine ⟨by decide, by decide, ?_⟩
  intro v q
  by_cases h1 : pyUpper v = [ 'N', 'U', 'L', 'L' ]
  · simp [parse_value, parse_value_amended_C2, h1]
  · by_cases h2 : v = []
    · subst h2; cases q <;> decide
    · simp [parse_value, parse_value_amended_C2, h1, h2]

/-! ### Claim C10: quoting only matters for the empty token -/

/-- C10: for every non-empty token the result of `_parse_value` is
independent of the quoting flag; in particular the quoted string
`'NULL'` converts to null and the quoted digits `'123'` to the integer
123. -/
theorem C10_quoting_independence :
    (∀ v : List Char, v ≠ [] → parse_value v true = parse_value v false) ∧
      parse_value "NULL".toList true = SqlValue.null ∧
      parse_value "123".toList true = SqlValue.intV 123 := by
  refine ⟨?_, by decide, by decide⟩
  intro v hv
  by_cases h1 : pyUpper v = [ 'N', 'U', 'L', 'L' ]
  · simp [parse_value, h1]
  · simp [parse_value, h1, hv]

/-- C10 witness: the quoting-independence part at the concrete token
`abc`. -/
theorem C10_quoting_independence_witness :
    parse_value "abc".toList true = parse_value "abc".toList false :=
  C10_quoting_independence.1 "abc".toList (by decide)

/-! ### The chunked line reader `read_lines_zst` (watchful.py lines 42-58)

The zstd decompression and UTF-8 decoding layer is modelled separately
with `read_and_decode`; here the reader is given the sequence of decoded
text chunks it obtains from `read_and_decode` (all non-empty until end
of stream — an empty chunk means end of file and stops the loop). -/

/-- Python `s.split("\n")` on character lists: always at least one
part; a trailing newline yields a trailing empty part. -/
def splitNl : List Char → List (List Char)
  | [] => [[]]
  | c :: cs =>
    if c = '\n' then [] :: splitNl cs
    else
      match splitNl cs with
      | [] => [[c]]
      | l :: ls => (c :: l) :: ls

/-- Prepend characters onto the first part of a split. -/
def consHead (x : List Char) : List (List Char) → List (List Char)
  | [] => [x]
  | y :: ys => (x ++ y) :: ys

lemma splitNl_ne_nil (s : List Char) : splitNl s ≠ [] := by
  cases s with
  | nil => simp [splitNl]
  | cons c cs =>
    simp only [splitNl]
    by_cases h : c = '\n'
    · simp [h]
    · simp only [h, if_false]
      cases hs : splitNl cs <;> simp

lemma consHead_ne_nil (x : List Char) (l : List (List Char)) : consHead x l ≠ [] := by
  cases l <;> simp [consHead]

/-- If a string has no newline it is its own single line. -/
lemma splitNl_of_no_newline (s : List Char) (h : '\n' ∉ s) : splitNl s = [s] := by
  induction s with
  | nil => simp [splitNl]
  | cons c cs ih =>
    have hc : c ≠ '\n' := fun hc => h (hc ▸ List.mem_cons_self c cs)
    have hcs : '\n' ∉ cs := fun hm => h (List.mem_cons_of_mem c hm)
    simp [splitNl, hc, ih hcs]

/-- `getLastD` ignores its default on non-empty lists. -/
lemma getLastD_irrel {α : Type} {l : List α} (h : l ≠ []) (d d2 : α) :
    l.getLastD d = l.getLastD d2 := by
  cases l with
  | nil => exact absurd rfl h
  | cons x xs => simp only [List.getLastD_cons]

lemma splitNl_nil : splitNl [] = [[]] := rfl

lemma splitNl_cons_newline (cs : List Char) : splitNl ('\n' :: cs) = [] :: splitNl cs := by
  simp [splitNl]

lemma splitNl_cons_other (c : Char) (cs : List Char) (h : c ≠ '\n') :
    splitNl (c :: cs) = consHead [c] (splitNl cs) := by
  simp only [splitNl, h, if_false]
  cases hs : splitNl cs with
  | nil => exact absurd hs (splitNl_ne_nil cs)
  | cons l ls => simp [consHead]

lemma consHead_cons (x y : List Char) (ys : List (List Char)) :
    consHead x (y :: ys) = (x ++ y) :: ys := rfl

lemma consHead_consHead (x y : List Char) (z : List (List Char)) :
    consHead x (consHead y z) = consHead (x ++ y) z := by
  cases z <;> simp [consHead]

/-- The last part of a split never contains a newline. -/
lemma splitNl_getLastD_no_newline (s : List Char) : '\n' ∉ (splitNl s).getLastD [] := by
  induction s with
  | nil => simp [splitNl]
  | cons c cs ih =>
    by_cases h : c = '\n'
    · subst h
      rw [splitNl_cons_newline, List.getLastD_cons]
      exact ih
    · rw [splitNl_cons_other c cs h]
      cases hs : splitNl cs with
      | nil => exact absurd hs (splitNl_ne_nil cs)
      | cons l ls =>
        rw [hs] at ih
        rw [consHead_cons]
        cases ls with
        | nil =>
          simp only [List.getLastD_cons, List.getLastD_nil] at ih ⊢
          intro hmem
          rcases List.mem_cons.mp hmem with h1 | h2
          · exact h h1.symm
          · exact ih (by simpa using h2)
        | cons l2 ls2 =>
          simpa only [List.getLastD_cons] using ih

/-- `dropLast` distributes over append when the right part is
non-empty. -/
lemma dropLast_append_ne {α : Type} (l1 l2 : List α) (h : l2 ≠ []) :
    (l1 ++ l2).dropLast = l1 ++ l2.dropLast := by
  induction l1 with
  | nil => simp
  | cons x xs ih =>
    cases hx : xs ++ l2 with
    | nil =>
      rcases List.append_eq_nil.mp hx with ⟨-, h2⟩
      exact absurd h2 h
    | cons y ys =>
      rw [List.cons_append, hx, List.dropLast_cons₂, ← hx, ih, List.cons_append]

/-- Splitting a concatenation: the last part of the left split merges
with the first part of the right split. -/
lemma splitNl_append (a b : List Char) :
    splitNl (a ++ b) =
      (splitNl a).dropLast ++ consHead ((splitNl a).getLastD []) (splitNl b) := by
  induction a with
  | nil =>
    cases hb : splitNl b with
    | nil => exact absurd hb (splitNl_ne_nil b)
    | cons y ys =>
      simp [splitNl_nil, hb, consHead]
  | cons c a2 ih =>
    by_cases h : c = '\n'
    · subst h
      rw [List.cons_append, splitNl_cons_newline, splitNl_cons_newline, ih]
      cases hs : splitNl a2 with
      | nil => exact absurd hs (splitNl_ne_nil a2)
      | cons l ls =>
        cases ls with
        | nil => simp [List.getLastD_cons]
        | cons l2 ls2 => simp [List.getLastD_cons, List.dropLast_cons₂]
    · rw [List.cons_append, splitNl_cons_other c _ h, splitNl_cons_other c _ h, ih]
      cases hs : splitNl a2 with
      | nil => exact absurd hs (splitNl_ne_nil a2)
      | cons l ls =>
        cases ls with
        | nil =>
          simp [consHead_cons, consHead_consHead, List.getLastD_cons]
        | cons l2 ls2 =>
          simp only [consHead_cons, List.dropLast_cons₂, List.getLastD_cons,
            List.cons_append]

/-- The chunk loop of `read_lines_zst` (watchful.py lines 46-57): each
decoded chunk is appended to the carried buffer, split on newlines, all
parts but the last are yielded and the last is carried over; an empty
chunk ends the stream (the carried buffer is discarded). -/
def readLinesLoop (buffer : List Char) : List (List Char) → List (List Char)
  | [] => []
  | c :: cs =>
    if c = [] then []
    else
      let lines := splitNl (buffer ++ c)
      lines.dropLast ++ readLinesLoop (lines.getLastD []) cs

/-- `read_lines_zst`, at the decoded-text-chunk level. -/
def read_lines_zst (chunks : List (List Char)) : List (List Char) :=
  readLinesLoop [] chunks

/-- The chunk loop yields every line of the remaining content except
the part after the last newline. -/
lemma readLinesLoop_eq (chunks : List (List Char)) (h : ∀ c ∈ chunks, c ≠ [])
    (buffer : List Char) (hb : '\n' ∉ buffer) :
    readLinesLoop buffer chunks = (splitNl (buffer ++ chunks.flatten)).dropLast := by
  induction chunks generalizing buffer with
  | nil =>
    simp [readLinesLoop, splitNl_of_no_newline buffer hb]
  | cons c cs ih =>
    have hc : c ≠ [] := h c (List.mem_cons_self c cs)
    have hcs : ∀ x ∈ cs, x ≠ [] := fun x hx => h x (List.mem_cons_of_mem c hx)
    simp only [readLinesLoop, hc, if_false, List.flatten_cons]
    rw [ih hcs _ (splitNl_getLastD_no_newline (buffer ++ c))]
    rw [show buffer ++ (c ++ cs.flatten) = (buffer ++ c) ++ cs.flatten by simp,
      splitNl_append (buffer ++ c) cs.flatten]
    rw [dropLast_append_ne _ _ (consHead_ne_nil _ _)]
    congr 1
    rw [splitNl_append ((splitNl (buffer ++ c)).getLastD []) cs.flatten,
      splitNl_of_no_newline _ (splitNl_getLastD_no_newline (buffer ++ c))]
    simp

/-- C3 (counterexample): the claim as stated fails for content that
does not end in a newline: the reader never yields the final partial
line, so its output is not the newline-split of the whole content.  On
the single chunk `"a"` the reader yields no lines at all while the
whole-content split is `["a"]`. -/
theorem C3_chunked_lines_counterexample :
    read_lines_zst [[ 'a' ]] = [] ∧
      splitNl (List.flatten [[ 'a' ]]) = [[ 'a' ]] ∧
      (([] : List (List Char)) ≠ [[ 'a' ]]) := by
  refine ⟨by decide, by decide, by decide⟩

/-- C3 (amended): for every sequence of (non-empty) decoded chunks, the
lines produced by the chunked reader equal the newline-split of the
whole decoded content with its final element dropped — chunk boundaries
and the carried-over partial line never change, drop or duplicate any
newline-terminated line, and the text after the last newline is never
yielded. -/
theorem C3_chunked_reassembly (chunks : List (List Char)) (h : ∀ c ∈ chunks, c ≠ []) :
    read_lines_zst chunks = (splitNl chunks.flatten).dropLast := by
  unfold read_lines_zst
  simpa using readLinesLoop_eq chunks h [] (by simp)

/-- C3 witness: two concrete chunks splitting a line across the
boundary. -/
theorem C3_chunked_reassembly_witness :
    read_lines_zst ["ab\ncd".toList, "e\nf".toList] =
      (splitNl (List.flatten ["ab\ncd".toList, "e\nf".toList])).dropLast :=
  C3_chunked_reassembly ["ab\ncd".toList, "e\nf".toList] (by decide)

/-! ### The decode-retry loop `read_and_decode` (watchful.py lines 26-39)

Bytes are modelled as `List ℕ` and the UTF-8 decoder as an abstract
`decode : List ℕ → Option (List Char)` (`none` models
`UnicodeDecodeError`).  The zstd reader is modelled by the remaining
byte stream: `reader.read(n)` takes up to `n` bytes off its front.
`bytes_read` grows by `chunk_size` on every read (as in the source,
even when the reader returns fewer bytes near end of stream).  The
initial `previous_chunk=None` is the empty prefix.  When
`chunk_size = 0` the Python recursion never terminates (unreachable:
`read_lines_zst` always passes `2**27`); the embedding returns the
decode error there. -/

def read_and_decode (decode : List ℕ → Option (List Char)) (chunkSize maxWindow : ℕ)
    (stream previous : List ℕ) (bytesRead : ℕ) : Except Unit (List Char × List ℕ) :=
  match decode (previous ++ stream.take chunkSize) with
  | some text => .ok (text, stream.drop chunkSize)
  | none =>
    if h : bytesRead + chunkSize > maxWindow then .error ()
    else if hc : 0 < chunkSize then
      read_and_decode decode chunkSize maxWindow (stream.drop chunkSize)
        (previous ++ stream.take chunkSize) (bytesRead + chunkSize)
    else .error ()
termination_by maxWindow + 1 - bytesRead
decreasing_by omega

/-- The chunk size `2**27` passed by `read_lines_zst` (watchful.py
line 47). -/
def readLinesChunkSize : ℕ := 2 ^ 27

/-- The retry ceiling `(2**29) * 2` passed by `read_lines_zst`
(watchful.py line 47). -/
def readLinesMaxWindow : ℕ := 2 ^ 29 * 2

/-- One unfolding of the retry loop. -/
lemma read_and_decode_unfold (decode : List ℕ → Option (List Char))
    (c W : ℕ) (s p : List ℕ) (b : ℕ) :
    read_and_decode decode c W s p b =
      match decode (p ++ s.take c) with
      | some text => .ok (text, s.drop c)
      | none =>
        if b + c > W then .error ()
        else if 0 < c then
          read_and_decode decode c W (s.drop c) (p ++ s.take c) (b + c)
        else .error () := by
  rw [read_and_decode]
  cases decode (p ++ s.take c) with
  | some t => rfl
  | none =>
    by_cases h : b + c > W
    · simp [h]
    · by_cases hc : 0 < c <;> simp [h, hc]

lemma rad_unfold_some (decode : List ℕ → Option (List Char)) (c W : ℕ)
    (s p : List ℕ) (b : ℕ) (t : List Char)
    (hd : decode (p ++ s.take c) = some t) :
    read_and_decode decode c W s p b = .ok (t, s.drop c) := by
  rw [read_and_decode_unfold, hd]

lemma rad_unfold_none (decode : List ℕ → Option (List Char)) (c W : ℕ)
    (s p : List ℕ) (b : ℕ) (hd : decode (p ++ s.take c) = none) :
    read_and_decode decode c W s p b =
      (if b + c > W then .error ()
       else if 0 < c then
         read_and_decode decode c W (s.drop c) (p ++ s.take c) (b + c)
       else .error ()) := by
  rw [read_and_decode_unfold, hd]

/-- Error characterization of the retry loop, by induction on the
remaining budget below the ceiling. -/
lemma rad_error_iff (decode : List ℕ → Option (List Char)) {c W : ℕ} (hc : 0 < c) :
    ∀ (k : ℕ) (s p : List ℕ) (b : ℕ), W + 1 - b ≤ k →
      (read_and_decode decode c W s p b = .error () ↔
        (decode (p ++ s.take c) = none ∧
          ∀ n : ℕ, 1 ≤ n → b + n * c ≤ W →
            decode (p ++ s.take ((n + 1) * c)) = none)) := by
  intro k
  induction k with
  | zero =>
    intro s p b hk
    cases hd : decode (p ++ s.take c) with
    | some t => rw [rad_unfold_some decode c W s p b t hd]; simp
    | none =>
      have hbW : b + c > W := by omega
      rw [rad_unfold_none decode c W s p b hd, if_pos hbW]
      constructor
      · intro _
        exact ⟨rfl, fun n hn hbn => absurd hbn (by omega)⟩
      · intro _
        rfl
  | succ k ih =>
    intro s p b hk
    cases hd : decode (p ++ s.take c) with
    | some t => rw [rad_unfold_some decode c W s p b t hd]; simp
    | none =>
      rw [rad_unfold_none decode c W s p b hd]
      by_cases hbW : b + c > W
      · rw [if_pos hbW]
        constructor
        · intro _
          refine ⟨rfl, fun n hn hbn => ?_⟩
          have hcc : c ≤ n * c := Nat.le_mul_of_pos_left c (by omega)
          exact absurd hbn (by omega)
        · intro _
          rfl
      · rw [if_neg hbW, if_pos hc]
        have hrec := ih (s.drop c) (p ++ s.take c) (b + c) (by omega)
        have hb1 : (p ++ s.take c) ++ (s.drop c).take c = p ++ s.take (c + c) := by
          rw [List.append_assoc, ← List.take_add]
        have hb2 : ∀ n : ℕ, (p ++ s.take c) ++ (s.drop c).take ((n + 1) * c) =
            p ++ s.take (c + (n + 1) * c) := by
          intro n
          rw [List.append_assoc, ← List.take_add]
        rw [hb1] at hrec
        simp only [hb2] at hrec
        rw [hrec]
        have keyD : ∀ X Y : ℕ, X = Y → decode (p ++ s.take X) = none →
            decode (p ++ s.take Y) = none := by
          intro X Y hXY hX
          rw [← hXY]
          exact hX
        constructor
        · rintro ⟨h2, hrest⟩
          refine ⟨rfl, fun n hn hbn => ?_⟩
          rcases Nat.exists_eq_add_of_le hn with ⟨m, hm⟩
          subst hm
          cases m with
          | zero => exact keyD _ _ (by ring) h2
          | succ m =>
            refine keyD _ _ (by ring) (hrest (m + 1) (by omega) ?_)
            have h3 : (1 + (m + 1)) * c = c + (m + 1) * c := by ring
            omega
        · rintro ⟨-, hall⟩
          constructor
          · refine keyD _ _ (by ring) (hall 1 le_rfl ?_)
            have h3 : 1 * c = c := one_mul c
            omega
          · intro n hn hbn
            refine keyD _ _ (by ring) (hall (n + 1) (by omega) ?_)
            have h3 : (n + 1) * c = n * c + c := by ring
            omega

/-- Success characterization of the retry loop: returned text is a
decode of the accumulated buffer after some number of reads. -/
lemma rad_ok (decode : List ℕ → Option (List Char)) {c W : ℕ} (hc : 0 < c) :
    ∀ (k : ℕ) (s p : List ℕ) (b : ℕ), W + 1 - b ≤ k →
      ∀ (t : List Char) (rest : List ℕ),
        read_and_decode decode c W s p b = .ok (t, rest) →
        ∃ n : ℕ, 1 ≤ n ∧ decode (p ++ s.take (n * c)) = some t ∧
          rest = s.drop (n * c) := by
  intro k
  induction k with
  | zero =>
    intro s p b hk t rest hok
    cases hd : decode (p ++ s.take c) with
    | some t2 =>
      rw [rad_unfold_some decode c W s p b t2 hd] at hok
      injection hok with h
      injection h with h1 h2
      subst h1
      subst h2
      refine ⟨1, le_rfl, ?_, ?_⟩
      · rw [one_mul]
        exact hd
      · rw [one_mul]
    | none =>
      have hbW : b + c > W := by omega
      rw [rad_unfold_none decode c W s p b hd, if_pos hbW] at hok
      exact absurd hok (by simp)
  | succ k ih =>
    intro s p b hk t rest hok
    cases hd : decode (p ++ s.take c) with
    | some t2 =>
      rw [rad_unfold_some decode c W s p b t2 hd] at hok
      injection hok with h
      injection h with h1 h2
      subst h1
      subst h2
      refine ⟨1, le_rfl, ?_, ?_⟩
      · rw [one_mul]
        exact hd
      · rw [one_mul]
    | none =>
      rw [rad_unfold_none decode c W s p b hd] at hok
      by_cases hbW : b + c > W
      · rw [if_pos hbW] at hok
        exact absurd hok (by simp)
      · rw [if_neg hbW, if_pos hc] at hok
        rcases ih (s.drop c) (p ++ s.take c) (b + c) (by omega) t rest hok with
          ⟨n, hn, hdec, hrest⟩
        refine ⟨n + 1, by omega, ?_, ?_⟩
        · have hb : (p ++ s.take c) ++ (s.drop c).take (n * c) = p ++ s.take (c + n * c) := by
            rw [List.append_assoc, ← List.take_add]
          rw [hb] at hdec
          have hX : c + n * c = (n + 1) * c := by ring
          rw [← hX]
          exact hdec
        · rw [hrest, List.drop_drop]
          congr 1
          ring

/-- C8: the retry loop fails with the decode error exactly when every
decode attempt available within the ceiling fails: the first attempt
unconditionally, and each further attempt `n + 1` reached while the
cumulative bytes read `bytesRead + n * chunkSize` stay within the
ceiling.  When it returns text instead, that text is a real decode of
the accumulated buffer after some number of reads.  (In
`read_lines_zst` the chunk is `2^27` bytes — about 128MB — and the
ceiling `2^30` — about 1GB.) -/
theorem C8_read_and_decode_retry (decode : List ℕ → Option (List Char))
    (c W : ℕ) (s p : List ℕ) (b : ℕ) (hc : 0 < c) :
    (read_and_decode decode c W s p b = .error () ↔
      (decode (p ++ s.take c) = none ∧
        ∀ n : ℕ, 1 ≤ n → b + n * c ≤ W →
          decode (p ++ s.take ((n + 1) * c)) = none)) ∧
    (∀ t rest, read_and_decode decode c W s p b = .ok (t, rest) →
      ∃ n : ℕ, 1 ≤ n ∧ decode (p ++ s.take (n * c)) = some t ∧
        rest = s.drop (n * c)) :=
  ⟨rad_error_iff decode hc (W + 1 - b) s p b le_rfl,
    rad_ok decode hc (W + 1 - b) s p b le_rfl⟩

/-- C8 witness: with a decoder that always fails, a 2-byte chunk and a
3-byte ceiling, the loop terminates with the decode error. -/
theorem C8_read_and_decode_retry_witness :
    read_and_decode (fun _ => none) 2 3 [] [] 0 = Except.error () :=
  ((C8_read_and_decode_retry (fun _ => none) 2 3 [] [] 0 (by decide)).1).mpr
    ⟨rfl, fun _ _ _ => rfl⟩

/-! ### The adaptive batch loader (batch_processing_utils.py)

`BatchConfig`, `_calculate_optimal_batch_size` and `process_batches`.
Python floats are modelled as exact rationals.  The hysteresis test
`abs(new_size - current) > current * 0.1` compares an integer with the
binary-float product `current * 0.1`; since the float `0.1` is slightly
above 1/10, the rounded product always lies in `[current/10, current/10 + 1)`
for integer `current ≥ 0`, so the comparison agrees with the exact
rational `current/10` used here.  Throughput and memory samples
(`self.metrics.records_per_second`, `psutil` memory) depend on wall
clock and the OS, so the loop takes them from an oracle indexed by the
batch start position. -/

/-- Python `int()` applied to a float/rational: truncation toward
zero. -/
def pyInt (q : ℚ) : ℤ := if 0 ≤ q then ⌊q⌋ else ⌈q⌉

/-- `BatchConfig` (batch_processing_utils.py lines 107-119). -/
structure BatchConfig where
  initial_batch_size : ℤ := 1000
  min_batch_size : ℤ := 50
  max_batch_size : ℤ := 10000
  memory_threshold_mb : ℚ := 100
  performance_threshold_records_per_sec : ℚ := 1000
  auto_tune_enabled : Bool := true
  transaction_scope : String := "batch"
  progress_callback_interval : ℤ := 100
  validation_enabled : Bool := true

/-- `BatchProcessor._calculate_optimal_batch_size` (lines 153-213):
memory factor `max(0.5, threshold/used)` when over threshold, else 1;
performance factor `min(1.5, target/observed)` when `0 < observed <
target`, else 1; candidate `int(current × min(factors))` clamped to
`[min, max]`; adopted only on a change of more than 10% of the current
size.  (The metrics bookkeeping and logging in the adopt branch do not
affect the returned size.) -/
def calculate_optimal_batch_size (cfg : BatchConfig) (current : ℤ)
    (processing_speed memory_usage : ℚ) : ℤ :=
  if !cfg.auto_tune_enabled then current
  else
    let memory_factor : ℚ :=
      if memory_usage > cfg.memory_threshold_mb then
        max (1 / 2) (cfg.memory_threshold_mb / memory_usage)
      else 1
    let performance_factor : ℚ :=
      if 0 < processing_speed ∧
          processing_speed < cfg.performance_threshold_records_per_sec then
        min (3 / 2) (cfg.performance_threshold_records_per_sec / processing_speed)
      else 1
    let adjustment_factor := min memory_factor performance_factor
    let new_size := pyInt ((current : ℚ) * adjustment_factor)
    let clamped := max cfg.min_batch_size (min cfg.max_batch_size new_size)
    if ((clamped - current).natAbs : ℚ) > (current : ℚ) * (1 / 10) then clamped
    else current

/-- C4, modelled from the spec sentence as written: candidate
`current × min(memory_factor, performance_factor)` with
`memory_factor = min(1, threshold/used)` and
`performance_factor = min(1.5, target/observed)`, clamped and adopted
under the same 10% hysteresis. -/
def calc_optimal_spec_C4 (cfg : BatchConfig) (current : ℤ)
    (processing_speed memory_usage : ℚ) : ℤ :=
  let memory_factor : ℚ := min 1 (cfg.memory_threshold_mb / memory_usage)
  let performance_factor : ℚ :=
    min (3 / 2) (cfg.performance_threshold_records_per_sec / processing_speed)
  let candidate := pyInt ((current : ℚ) * min memory_factor performance_factor)
  let clamped := max cfg.min_batch_size (min cfg.max_batch_size candidate)
  if ((clamped - current).natAbs : ℚ) > (current : ℚ) * (1 / 10) then clamped
  else current

/-- The default configuration (the dataclass defaults). -/
def defaultBatchConfig : BatchConfig := {}

/-- C4 (counterexample): with the default config, current size 1000,
observed speed 2000 rec/s and 300MB used, the code computes
`1000 × max(0.5, 100/300) = 500` (memory factor floored at 0.5,
performance factor 1 because throughput exceeds the target) while the
claim's formulas give `1000 × min(1/3, 1/2) = 333`. -/
theorem C4_batch_size_counterexample :
    calculate_optimal_batch_size defaultBatchConfig 1000 2000 300 = 500 ∧
      calc_optimal_spec_C4 defaultBatchConfig 1000 2000 300 = 333 ∧
      (500 : ℤ) ≠ 333 := by
  refine ⟨?_, ?_, by decide⟩
  · simp only [calculate_optimal_batch_size, defaultBatchConfig, pyInt, max_def, min_def]
    norm_num
  · simp only [calc_optimal_spec_C4, defaultBatchConfig, pyInt, max_def, min_def]
    norm_num

/-- C4, amended: memory factor `max(0.5, min(1, threshold/used))` — the
claim's factor with a floor of 0.5 — and performance factor
`min(1.5, target/observed)` only when `0 < observed < target`, else 1;
candidate truncated to an integer, clamped, 10% hysteresis. -/
def calc_optimal_amended_C4 (cfg : BatchConfig) (current : ℤ)
    (processing_speed memory_usage : ℚ) : ℤ :=
  let memory_factor : ℚ := max (1 / 2) (min 1 (cfg.memory_threshold_mb / memory_usage))
  let performance_factor : ℚ :=
    if 0 < processing_speed ∧
        processing_speed < cfg.performance_threshold_records_per_sec then
      min (3 / 2) (cfg.performance_threshold_records_per_sec / processing_speed)
    else 1
  let candidate := pyInt ((current : ℚ) * min memory_factor performance_factor)
  let clamped := max cfg.min_batch_size (min cfg.max_batch_size candidate)
  if ((clamped - current).natAbs : ℚ) > (current : ℚ) * (1 / 10) then clamped
  else current

/-- C4 (amended): with auto-tuning on and positive threshold and
memory sample, the loader's candidate equals
`current × min(max(0.5, min(1, threshold/used)), performance_factor)`
with the performance factor applied only when `0 < observed < target`,
clamped to `[min, max]` and adopted only on a change of more than 10%
of the current size. -/
theorem C4_batch_size_formula (cfg : BatchConfig) (current : ℤ)
    (speed mem : ℚ) (hauto : cfg.auto_tune_enabled = true) (hmem : 0 < mem) :
    calculate_optimal_batch_size cfg current speed mem =
      calc_optimal_amended_C4 cfg current speed mem := by
  have hmf : (if mem > cfg.memory_threshold_mb then
        max (1 / 2) (cfg.memory_threshold_mb / mem)
      else 1) = max (1 / 2) (min 1 (cfg.memory_threshold_mb / mem)) := by
    by_cases h : cfg.memory_threshold_mb < mem
    · rw [if_pos h, min_eq_right ((div_lt_one hmem).mpr h).le]
    · push_neg at h
      rw [if_neg (not_lt.mpr h), min_eq_left ((one_le_div hmem).mpr h),
        max_eq_right (by norm_num : (1 / 2 : ℚ) ≤ 1)]
  simp only [calculate_optimal_batch_size, calc_optimal_amended_C4, hauto,
    Bool.not_true, Bool.false_eq_true, if_false, hmf]

/-- C4 witness: the amended formula at the counterexample's input. -/
theorem C4_batch_size_formula_witness :
    calculate_optimal_batch_size defaultBatchConfig 1000 2000 300 =
      calc_optimal_amended_C4 defaultBatchConfig 1000 2000 300 :=
  C4_batch_size_formula defaultBatchConfig 1000 2000 300 rfl (by norm_num)

/-- One auto-tuning step keeps the size in `[min, max]`. -/
lemma calc_optimal_in_range (cfg : BatchConfig) (cur : ℤ) (speed mem : ℚ)
    (h1 : cfg.min_batch_size ≤ cur) (h2 : cur ≤ cfg.max_batch_size) :
    cfg.min_batch_size ≤ calculate_optimal_batch_size cfg cur speed mem ∧
      calculate_optimal_batch_size cfg cur speed mem ≤ cfg.max_batch_size := by
  simp only [calculate_optimal_batch_size]
  split
  · exact ⟨h1, h2⟩
  · split <;> split <;> split <;>
      first
        | exact ⟨h1, h2⟩
        | exact ⟨le_max_left _ _, max_le (le_trans h1 h2) (min_le_left _ _)⟩

/-- The loader's per-batch size update, iterated over a sample
sequence (`self.current_batch_size = self._calculate_optimal_batch_size(...)`,
batch_processing_utils.py line 419). -/
def tuneSteps (cfg : BatchConfig) (cur : ℤ) (samples : List (ℚ × ℚ)) : ℤ :=
  samples.foldl (fun c sm => calculate_optimal_batch_size cfg c sm.1 sm.2) cur

/-- C5: from any starting size in `[min_batch_size, max_batch_size]`,
the auto-tuned batch size stays in `[min_batch_size, max_batch_size]`
after any sequence of throughput/memory samples, including zero
throughput and arbitrarily high memory use. -/
theorem C5_batch_size_invariant (cfg : BatchConfig) (samples : List (ℚ × ℚ))
    (cur : ℤ) (h1 : cfg.min_batch_size ≤ cur) (h2 : cur ≤ cfg.max_batch_size) :
    cfg.min_batch_size ≤ tuneSteps cfg cur samples ∧
      tuneSteps cfg cur samples ≤ cfg.max_batch_size := by
  induction samples generalizing cur with
  | nil => exact ⟨h1, h2⟩
  | cons sm rest ih =>
    have hstep := calc_optimal_in_range cfg cur sm.1 sm.2 h1 h2
    exact ih _ hstep.1 hstep.2

/-- C5 witness: default config, zero throughput then extreme memory
pressure. -/
theorem C5_batch_size_invariant_witness :
    defaultBatchConfig.min_batch_size ≤
        tuneSteps defaultBatchConfig 1000 [(0, 1000000), (1, 1000000), (2000, 0)] ∧
      tuneSteps defaultBatchConfig 1000 [(0, 1000000), (1, 1000000), (2000, 0)] ≤
        defaultBatchConfig.max_batch_size :=
  C5_batch_size_invariant defaultBatchConfig [(0, 1000000), (1, 1000000), (2000, 0)] 1000
    (by decide) (by decide)

/-! ### `process_batches` (batch_processing_utils.py lines 338-464)

Records are Python dicts, modelled as association lists.  The batch
operation either returns a result dict (`inserted`/`updated`/`errors`)
or raises (`none`).  The database connection is modelled by the trace
of transaction-control statements it executes; `progress_callback` and
the metrics/logging calls have no effect on the returned summary and
are omitted.  The `for batch_start in range(0, len(data), step)` header
fixes its step once at loop entry (`step0`), while each batch's end
uses the current (auto-tuned) batch size, as in the source.  A
non-positive step makes Python's `range` raise; the embedding's loop
guard simply stops there (no claim depends on that case). -/

abbrev PyDict := List (String × SqlValue)

/-- Python `item[field]` lookup on a dict. -/
def dictGet (r : PyDict) (k : String) : Option SqlValue :=
  (r.find? (fun p => p.1 == k)).map Prod.snd

/-- Python `field in item and item[field]`. -/
def fieldPresentTruthy (item : PyDict) (f : String) : Bool :=
  match dictGet item f with
  | some v => v.truthy
  | none => false

/-- The required-fields table of `_validate_batch_data` (line 275). -/
def requiredFields (operation_type : String) : List String :=
  if operation_type = "posts" then ["id", "subreddit"]
  else if operation_type = "comments" then ["id", "subreddit"]
  else ["id"]

/-- `BatchProcessor._validate_batch_data` (lines 261-287): keeps the
records whose required fields are present and truthy (every item is a
dict by construction here, so the `isinstance` guard always passes). -/
def validate_batch_data (cfg : BatchConfig) (data : List PyDict)
    (operation_type : String) : List PyDict :=
  if !cfg.validation_enabled then data
  else data.filter (fun item =>
    (requiredFields operation_type).all (fun f => fieldPresentTruthy item f))

/-- Transaction-control statements executed on the connection. -/
inductive SQLCmd where
  | beginTx
  | commitTx
  | rollbackTx
  deriving DecidableEq, Repr

/-- The result dict of a successful batch operation
(`result.get("inserted", 0)` etc., lines 393-394). -/
structure OpResult where
  inserted : ℕ := 0
  updated : ℕ := 0
  errors : ℕ := 0
  deriving DecidableEq, Repr

/-- The loop state of `process_batches`: the summary counters, the
processor's current batch size, and the connection's transaction
trace. -/
structure RunState where
  total_processed : ℕ
  total_errors : ℕ
  batches_processed : ℕ
  current_batch_size : ℤ
  trace : List SQLCmd
  deriving DecidableEq, Repr

/-- The batch loop of `process_batches` (lines 376-435).  On success
under batch transaction scope the trace gains BEGIN/COMMIT, the
counters absorb the result dict, and the size is re-tuned from the
oracle's throughput/memory sample; on an exception the trace gains
BEGIN/ROLLBACK, the whole batch is counted as errors, and the loop
continues with the next batch start. -/
def process_batches_loop (cfg : BatchConfig) (em : Bool)
    (op : List PyDict → Option OpResult) (oracle : ℕ → ℚ × ℚ)
    (data : List PyDict) (step0 start : ℕ) (st : RunState) : RunState :=
  if h : start < data.length ∧ 0 < step0 then
    let batch := (data.drop start).take st.current_batch_size.toNat
    match op batch with
    | some r =>
      let st2 : RunState :=
        { total_processed := st.total_processed + (r.inserted + r.updated)
          total_errors := st.total_errors + r.errors
          batches_processed := st.batches_processed + 1
          current_batch_size :=
            if cfg.auto_tune_enabled && em then
              calculate_optimal_batch_size cfg st.current_batch_size
                (oracle start).1 (oracle start).2
            else st.current_batch_size
          trace :=
            if cfg.transaction_scope = "batch" then
              st.trace ++ [SQLCmd.beginTx, SQLCmd.commitTx]
            else st.trace }
      process_batches_loop cfg em op oracle data step0 (start + step0) st2
    | none =>
      let st2 : RunState :=
        { st with
          total_errors := st.total_errors + batch.length
          trace :=
            if cfg.transaction_scope = "batch" then
              st.trace ++ [SQLCmd.beginTx, SQLCmd.rollbackTx]
            else st.trace }
      process_batches_loop cfg em op oracle data step0 (start + step0) st2
  else st
termination_by data.length - start
decreasing_by all_goals omega

/-- `BatchProcessor.process_batches` (lines 338-464): empty or fully
invalid input short-circuits, otherwise the batch loop runs over the
validated records with the entry batch size as the range step. -/
def process_batches (cfg : BatchConfig) (em : Bool)
    (op : List PyDict → Option OpResult) (oracle : ℕ → ℚ × ℚ)
    (data : List PyDict) (operation_type : String) (cur0 : ℤ) : RunState :=
  let st0 : RunState := ⟨0, 0, 0, cur0, []⟩
  if data = [] then st0
  else
    let vd := validate_batch_data cfg data operation_type
    if vd = [] then st0
    else process_batches_loop cfg em op oracle vd cur0.toNat 0 st0

/-- Errors only accumulate over the run. -/
lemma pbl_errors_mono (cfg : BatchConfig) (em : Bool)
    (op : List PyDict → Option OpResult) (oracle : ℕ → ℚ × ℚ) :
    ∀ (N : ℕ) (data : List PyDict) (step0 start : ℕ) (st : RunState),
      data.length - start ≤ N →
      st.total_errors ≤
        (process_batches_loop cfg em op oracle data step0 start st).total_errors := by
  intro N
  induction N with
  | zero =>
    intro data step0 start st hN
    rw [process_batches_loop, dif_neg (by omega)]
  | succ N ih =>
    intro data step0 start st hN
    rw [process_batches_loop]
    by_cases h : start < data.length ∧ 0 < step0
    · rw [dif_pos h]
      cases hop : op ((data.drop start).take st.current_batch_size.toNat) with
      | some r =>
        simp only [hop]
        refine le_trans ?_ (ih data step0 (start + step0) _ (by omega))
        simp
      | none =>
        simp only [hop]
        refine le_trans ?_ (ih data step0 (start + step0) _ (by omega))
        simp
    · rw [dif_neg h]

/-- C6: under batch transaction scope, when the batch operation raises
on the batch at `start`, the run issues BEGIN then ROLLBACK for it,
adds the whole batch's record count to the error total, and continues
with the next batch start instead of aborting; and error totals never
shrink afterwards, so the failed batch stays counted in the returned
totals. -/
theorem C6_batch_failure_recovery :
    (∀ (cfg : BatchConfig) (em : Bool) (op : List PyDict → Option OpResult)
        (oracle : ℕ → ℚ × ℚ) (data : List PyDict) (step0 start : ℕ) (st : RunState),
      cfg.transaction_scope = "batch" →
      start < data.length → 0 < step0 →
      op ((data.drop start).take st.current_batch_size.toNat) = none →
      process_batches_loop cfg em op oracle data step0 start st =
        process_batches_loop cfg em op oracle data step0 (start + step0)
          { st with
            total_errors := st.total_errors +
              ((data.drop start).take st.current_batch_size.toNat).length
            trace := st.trace ++ [SQLCmd.beginTx, SQLCmd.rollbackTx] }) ∧
    (∀ (cfg : BatchConfig) (em : Bool) (op : List PyDict → Option OpResult)
        (oracle : ℕ → ℚ × ℚ) (data : List PyDict) (step0 start : ℕ) (st : RunState),
      st.total_errors ≤
        (process_batches_loop cfg em op oracle data step0 start st).total_errors) := by
  constructor
  · intro cfg em op oracle data step0 start st hscope hstart hstep hop
    rw [process_batches_loop, dif_pos ⟨hstart, hstep⟩]
    simp only [hop, hscope, if_pos]
  · intro cfg em op oracle data step0 start st
    exact pbl_errors_mono cfg em op oracle (data.length - start) data step0 start st le_rfl

/-- C6 witness: a two-record run whose batch operation always raises. -/
theorem C6_batch_failure_recovery_witness :
    process_batches_loop defaultBatchConfig true (fun _ => none) (fun _ => (0, 0))
        [[], []] 1 0 ⟨0, 0, 0, 1, []⟩ =
      process_batches_loop defaultBatchConfig true (fun _ => none) (fun _ => (0, 0))
        [[], []] 1 (0 + 1)
        { (⟨0, 0, 0, 1, []⟩ : RunState) with
          total_errors := 0 +
            ((([[], []] : List PyDict).drop 0).take ((1 : ℤ)).toNat).length
          trace := ([] : List SQLCmd) ++ [SQLCmd.beginTx, SQLCmd.rollbackTx] } :=
  C6_batch_failure_recovery.1 defaultBatchConfig true (fun _ => none) (fun _ => (0, 0))
    [[], []] 1 0 ⟨0, 0, 0, 1, []⟩ rfl (by decide) (by decide) rfl

/-! ### `stream_rows` (voat_sql_parser.py lines 98-332) and
`_quick_extract_field` (lines 334-405)

The gzip layer and the early open-probe are file I/O and sit outside
the embedding: `stream_rows` here receives the decoded text lines of
the dump file.  The generator's yields are collected into `rows`.

Two faithfulness notes.  `_quick_extract_field` returns through
`self._convert_value`, a method that does not exist anywhere in the
class or repository, so each of its value-returning exits raises
`AttributeError` at run time (modelled as `Except.error ()`), which the
caller's bare `except` turns into a fall-through to the full parse:
the fast-path skip is dead code, though it is embedded in full.
Second, when `_parse_values_tuple` returns an empty value list on a
non-empty buffer (a tuple with no `,` or `)`), the Python inner `while
True` loop makes no progress and never terminates; the embedding's
fuel (`buffer.length + 1`, ample for every terminating run) returns
the current state instead at that unreachable-in-valid-SQL point. -/

/-- `COLUMN_MAPS["submission"]` (lines 31-59). -/
def submissionColumns : List String :=
  ["submissionid", "archiveDate", "commentCount", "content", "creationDate",
   "domain", "downCount", "formattedContent", "isAdult", "isAnonymized",
   "isDeleted", "lastEditDate", "subverse", "sum", "thumbnail", "title",
   "type", "upCount", "url", "userName", "views", "archivedLink",
   "archivedDomain", "deletedMeaning", "fetchCount", "lastFetched", "flags"]

/-- `COLUMN_MAPS["comment"]` (lines 60-83). -/
def commentColumns : List String :=
  ["commentid", "content", "creationDate", "downCount", "formattedContent",
   "isAnonymized", "isCollapsed", "isDeleted", "isDistinguished", "isOwner",
   "isSaved", "isSubmitter", "lastEditDate", "parentid", "submissionid",
   "subverse", "sum", "upCount", "userName", "vote", "fetchCount",
   "lastFetched"]

/-- `COLUMN_MAPS` lookup. -/
def columnMapsGet (table : String) : Option (List String) :=
  if table = "submission" then some submissionColumns
  else if table = "comment" then some commentColumns
  else none

/-- Python `str(value)` for parsed SQL values (`str(subverse_value)`,
lines 203 and 238).  Integers print in decimal as in Python; finite
floats print as reduced fractions here, where Python prints shortest
decimal repr — no proved property depends on the rendering of a
float-typed community value. -/
def pyStrOfSql : SqlValue → List Char
  | .null => [ 'N', 'o', 'n', 'e' ]
  | .intV n => (toString n).toList
  | .floatV (.finite q) => (toString q).toList
  | .floatV (.infinity neg) => if neg then [ '-', 'i', 'n', 'f' ] else [ 'i', 'n', 'f' ]
  | .floatV .nan => [ 'n', 'a', 'n' ]
  | .strV s => s

/-- Python `str.find(sub)`: the first index where `sub` occurs, if
any. -/
def findSub (s sub : List Char) : Option ℕ :=
  (List.range (s.length + 1)).find? (fun i => sub.isPrefixOf (s.drop i))

/-- Case-insensitive substring search modelling
`re.compile(..., re.IGNORECASE).search(line)` for a pattern with no
regex metacharacters. -/
def containsCI (s pat : List Char) : Bool :=
  (findSub (pyUpper s) (pyUpper pat)).isSome

/-- The character loop of `_quick_extract_field` (lines 353-403): a
lighter scanner tracking quoting, nesting depth and field index.  Both
of its value-returning exits call the missing method `_convert_value`,
so they raise (`.error ()`); the other exits return `None`. -/
def quickLoop (fieldIdx fieldCount : ℕ) (current : List Char) (inString : Bool)
    (parenDepth : ℕ) : List Char → Except Unit (Option SqlValue)
  | [] => .ok none
  | '\\' :: c2 :: rs =>
    if fieldCount > fieldIdx then .ok none
    else if inString then
      quickLoop fieldIdx fieldCount
        (if fieldCount = fieldIdx then current ++ [c2] else current) inString parenDepth rs
    else
      quickLoop fieldIdx fieldCount
        (if fieldCount = fieldIdx then current ++ [ '\\' ] else current) inString parenDepth
        (c2 :: rs)
  | '\\' :: [] =>
    if fieldCount > fieldIdx then .ok none
    else
      quickLoop fieldIdx fieldCount
        (if fieldCount = fieldIdx then current ++ [ '\\' ] else current) inString parenDepth []
  | '\'' :: '\'' :: rs =>
    if fieldCount > fieldIdx then .ok none
    else if inString then
      quickLoop fieldIdx fieldCount
        (if fieldCount = fieldIdx then current ++ [ '\'' ] else current) inString parenDepth rs
    else
      quickLoop fieldIdx fieldCount current true parenDepth ( '\'' :: rs)
  | '\'' :: rs =>
    if fieldCount > fieldIdx then .ok none
    else if inString then
      quickLoop fieldIdx fieldCount current false parenDepth rs
    else
      quickLoop fieldIdx fieldCount current true parenDepth rs
  | c :: rs =>
    if fieldCount > fieldIdx then .ok none
    else if !inString then
      if c = '(' then
        quickLoop fieldIdx fieldCount
          (if fieldCount = fieldIdx then current ++ [c] else current) inString (parenDepth + 1) rs
      else if c = ')' then
        if parenDepth = 0 then
          if fieldCount = fieldIdx then .error () else .ok none
        else
          quickLoop fieldIdx fieldCount
            (if fieldCount = fieldIdx then current ++ [c] else current) inString (parenDepth - 1) rs
      else if c = ',' ∧ parenDepth = 0 then
        if fieldCount = fieldIdx then .error ()
        else quickLoop fieldIdx (fieldCount + 1) [] inString parenDepth rs
      else
        quickLoop fieldIdx fieldCount
          (if fieldCount = fieldIdx then current ++ [c] else current) inString parenDepth rs
    else
      quickLoop fieldIdx fieldCount
        (if fieldCount = fieldIdx then current ++ [c] else current) inString parenDepth rs

/-- `VoatSQLParser._quick_extract_field`. -/
def quick_extract_field (text : List Char) (start fieldIdx : ℕ) :
    Except Unit (Option SqlValue) :=
  quickLoop fieldIdx 0 [] false 0 (text.drop (start + 1))

/-- `_quick_extract_field` can never produce a usable field value:
both of its value-returning exits go through the missing method
`_convert_value` and raise, and every other exit returns `None` — the
fast-path skip in `stream_rows` is dead code. -/
lemma quickLoop_never_value : ∀ (n : ℕ) (rest : List Char) (fieldIdx fieldCount : ℕ)
    (current : List Char) (inString : Bool) (parenDepth : ℕ) (v : SqlValue),
    rest.length ≤ n →
    quickLoop fieldIdx fieldCount current inString parenDepth rest ≠
      Except.ok (some v) := by
  intro n
  induction n with
  | zero =>
    intro rest fi fc cur s p v hlen
    have hnil : rest = [] := List.length_eq_zero.mp (Nat.le_zero.mp hlen)
    subst hnil
    simp [quickLoop]
  | succ n ih =>
    intro rest fi fc cur s p v hlen
    rw [quickLoop.eq_def]
    split
    all_goals repeat' split
    all_goals
      first
        | exact ih _ _ _ _ _ _ _ (by simp only [List.length_cons] at hlen ⊢; omega)
        | simp

/-- The fast path of `stream_rows` never actually extracts a value. -/
lemma quick_extract_field_no_value (text : List Char) (start fieldIdx : ℕ)
    (v : SqlValue) : quick_extract_field text start fieldIdx ≠ Except.ok (some v) :=
  quickLoop_never_value (text.drop (start + 1)).length _ fieldIdx 0 [] false 0 v le_rfl

/-- The generator's mutable loop state: parse buffer, the two format
flags, the yielded rows, and the three counters. -/
structure SRState where
  buffer : List Char
  inSplit : Bool
  accumulating : Bool
  rows : List (List (String × SqlValue))
  rowCount : ℕ
  skipped : ℕ
  errors : ℕ
  deriving DecidableEq, Repr

/-- The fast-path decision (lines 199-217): skip only when the quick
extraction returns a truthy value whose lowercased string form is not
in the allow-list; an exception (always, since `_convert_value` is
missing) or a falsy value falls through to the full parse. -/
def quickSkip (filterLower : Option (List (List Char))) (subIdx : Option ℕ)
    (buffer : List Char) (parenStart : ℕ) : Bool :=
  match filterLower, subIdx with
  | some fl, some k =>
    match quick_extract_field buffer parenStart k with
    | .error _ => false
    | .ok none => false
    | .ok (some v) => v.truthy && !(fl.contains (pyLower (pyStrOfSql v)))
  | _, _ => false

/-- The post-parse filter decision (lines 236-238): keep unless the
parsed community value is truthy and its lowercased string form is not
in the allow-list. -/
def fullKeep (filterLower : Option (List (List Char))) (subIdx : Option ℕ)
    (values : List SqlValue) : Bool :=
  match filterLower, subIdx with
  | some fl, some k =>
    match values.get? k with
    | some v => !(v.truthy && !(fl.contains (pyLower (pyStrOfSql v))))
    | none => true
  | _, _ => true

/-- Does the stripped buffer start with a semicolon
(`buffer.strip().startswith(";")`)? -/
def semiStart (buffer : List Char) : Bool :=
  match pyStrip buffer with
  | ';' :: _ => true
  | _ => false

/-- The three checks ending every inner-loop iteration (lines 275-284,
duplicated at 208-217 and 241-250): `some` means break with the given
state, `none` means loop again. -/
def endCheckStep (st : SRState) : Option SRState :=
  if pyStrip st.buffer = [] then
    some (if st.inSplit then { st with inSplit := false } else st)
  else if !st.inSplit && semiStart st.buffer then some st
  else if st.inSplit then some { st with inSplit := false }
  else none

/-- The inner `while True` tuple loop of `stream_rows`
(lines 192-284). -/
def processBuffer (columns : List String) (filterLower : Option (List (List Char)))
    (subIdx : Option ℕ) : ℕ → SRState → SRState
  | 0, st => st
  | fuel + 1, st =>
    match st.buffer.findIdx? (fun c => c == '(') with
    | none => st
    | some parenStart =>
      if quickSkip filterLower subIdx st.buffer parenStart then
        let st2 : SRState :=
          { st with buffer := st.buffer.drop (parse_values_tuple st.buffer parenStart).2,
                    skipped := st.skipped + 1 }
        match endCheckStep st2 with
        | some stF => stF
        | none => processBuffer columns filterLower subIdx fuel st2
      else
        let pr := parse_values_tuple st.buffer parenStart
        if pr.1 ≠ [] ∧ st.inSplit ∧ pr.1.length < columns.length then
          { st with accumulating := true }
        else if pr.1 ≠ [] ∧ pr.1.length = columns.length then
          if fullKeep filterLower subIdx pr.1 then
            let st2 : SRState :=
              { st with rows := st.rows ++ [columns.zip pr.1],
                        rowCount := st.rowCount + 1,
                        buffer := st.buffer.drop pr.2,
                        accumulating := false, inSplit := false }
            match endCheckStep st2 with
            | some stF => stF
            | none => processBuffer columns filterLower subIdx fuel st2
          else
            let st2 : SRState :=
              { st with skipped := st.skipped + 1, buffer := st.buffer.drop pr.2 }
            match endCheckStep st2 with
            | some stF => stF
            | none => processBuffer columns filterLower subIdx fuel st2
        else if pr.1 ≠ [] then
          let st2 : SRState :=
            { st with errors := st.errors + 1, buffer := st.buffer.drop pr.2 }
          match endCheckStep st2 with
          | some stF => stF
          | none => processBuffer columns filterLower subIdx fuel st2
        else
          match endCheckStep st with
          | some stF => stF
          | none => processBuffer columns filterLower subIdx fuel st

/-- The per-line dispatch of `stream_rows` (lines 148-187): skip
comments/blank lines and DDL, start a buffer at an INSERT statement or
a bare tuple line, extend it in multi-line mode, else skip the
line. -/
def lineDispatch (insertPat : List Char) (line : List Char) (st : SRState) :
    Option SRState :=
  let stripped := pyStrip line
  if stripped = [] || [ '-', '-' ].isPrefixOf stripped || [ '/', '*' ].isPrefixOf stripped then
    none
  else if ["CREATE ", "DROP ", "ALTER ", "SET ", "USE "].any
      (fun p => p.toList.isPrefixOf (pyUpper stripped)) then
    none
  else if containsCI line insertPat then
    match findSub (pyUpper line) [ 'V', 'A', 'L', 'U', 'E', 'S' ] with
    | none => none
    | some vp => some { st with buffer := line.drop (vp + 6), inSplit := false }
  else if [ '(' ].isPrefixOf stripped then
    some { st with buffer := line, inSplit := true, accumulating := false }
  else if st.accumulating || st.inSplit then
    some { st with buffer := st.buffer ++ line }
  else none

/-- The line loop of `stream_rows` (lines 148-284). -/
def streamLines (columns : List String) (filterLower : Option (List (List Char)))
    (subIdx : Option ℕ) (insertPat : List Char) :
    List (List Char) → SRState → SRState
  | [], st => st
  | line :: rest, st =>
    match lineDispatch insertPat line st with
    | none => streamLines columns filterLower subIdx insertPat rest st
    | some st1 =>
      let st2 :=
        if st1.buffer ≠ [] then
          processBuffer columns filterLower subIdx (st1.buffer.length + 1) st1
        else st1
      streamLines columns filterLower subIdx insertPat rest st2

/-- `VoatSQLParser.stream_rows` on the decoded lines of the dump file:
fails fast with `ValueError` on an unknown table, otherwise runs the
line loop from the empty state.  As in the source, the filter is used
only when non-empty (`if filter_subverses else None`, line 122). -/
def stream_rows (table : String) (filterSubverses : Option (List (List Char)))
    (lines : List (List Char)) : Except String SRState :=
  match columnMapsGet table with
  | none => .error ("Unknown table: " ++ table ++ ". Expected: ['submission', 'comment']")
  | some columns =>
    let subIdx := columns.findIdx? (fun c => c == "subverse")
    let filterLower :=
      match filterSubverses with
      | some l => if l = [] then none else some (l.map pyLower)
      | none => none
    let insertPat := ("INSERT INTO `" ++ table ++ "` VALUES").toList
    .ok (streamLines columns filterLower subIdx insertPat lines ⟨[], false, false, [], 0, 0, 0⟩)

/-- A `List.get?` on a zip splits into the component lookups. -/
lemma zip_get? (l1 : List String) (l2 : List SqlValue) (i : ℕ) :
    (l1.zip l2).get? i =
      match l1.get? i, l2.get? i with
      | some a, some b => some (a, b)
      | _, _ => none := by
  induction l1 generalizing l2 i with
  | nil => simp
  | cons a l1 ih =>
    cases l2 with
    | nil =>
      cases i <;> simp
    | cons b l2 =>
      cases i with
      | zero => simp
      | succ i => simpa using ih l2 i

/-- The post-break checks never change the collected rows. -/
lemma endCheckStep_rows (st st2 : SRState) (h : endCheckStep st = some st2) :
    st2.rows = st.rows := by
  simp only [endCheckStep] at h
  split at h
  · injection h with h2
    subst h2
    by_cases hs : st.inSplit <;> simp [hs]
  · split at h
    · injection h with h2
      subst h2
      rfl
    · split at h
      · injection h with h2
        subst h2
        rfl
      · exact Option.noConfusion h

/-- The per-line dispatch never changes the collected rows. -/
lemma lineDispatch_rows (insertPat line : List Char) (st st1 : SRState)
    (h : lineDispatch insertPat line st = some st1) : st1.rows = st.rows := by
  simp only [lineDispatch] at h
  split at h
  · exact Option.noConfusion h
  · split at h
    · exact Option.noConfusion h
    · split at h
      · split at h
        · exact Option.noConfusion h
        · injection h with h2
          subst h2
          rfl
      · split at h
        · injection h with h2
          subst h2
          rfl
        · split at h
          · injection h with h2
            subst h2
            rfl
          · exact Option.noConfusion h

/-- The property every yielded row must satisfy when an allow-list is
active: its community entry (at the subverse column index) is falsy or
its lowercased string form is in the lowercased allow-list. -/
def rowFilterOk (flLower : List (List Char)) (k : ℕ)
    (row : List (String × SqlValue)) : Prop :=
  ∀ p, row.get? k = some p →
    p.2.truthy = false ∨ flLower.contains (pyLower (pyStrOfSql p.2)) = true

/-- A row that passed the post-parse filter check satisfies
`rowFilterOk`. -/
lemma fullKeep_sound (flLower : List (List Char)) (k : ℕ) (columns : List String)
    (values : List SqlValue)
    (hkeep : fullKeep (some flLower) (some k) values = true) :
    rowFilterOk flLower k (columns.zip values) := by
  intro p hp
  rw [zip_get?] at hp
  cases hv : values.get? k with
  | none =>
    rw [hv] at hp
    cases hc : columns.get? k <;> rw [hc] at hp <;> exact Option.noConfusion hp
  | some v =>
    rw [hv] at hp
    cases hc : columns.get? k with
    | none =>
      rw [hc] at hp
      exact Option.noConfusion hp
    | some a =>
      rw [hc] at hp
      injection hp with h2
      subst h2
      simp only [fullKeep, hv] at hkeep
      by_cases ht : v.truthy
      · right
        rw [ht] at hkeep
        simpa using hkeep
      · left
        simpa using ht

/-- Break-or-continue preserves the row invariant. -/
lemma endChecksPreserve (columns : List String) (flLower : List (List Char)) (k : ℕ)
    (fuel : ℕ)
    (ih : ∀ st : SRState, (∀ row ∈ st.rows, rowFilterOk flLower k row) →
      ∀ row ∈ (processBuffer columns (some flLower) (some k) fuel st).rows,
        rowFilterOk flLower k row)
    (st2 : SRState) (h2 : ∀ row ∈ st2.rows, rowFilterOk flLower k row) :
    ∀ row ∈ (match endCheckStep st2 with
        | some stF => stF
        | none => processBuffer columns (some flLower) (some k) fuel st2).rows,
      rowFilterOk flLower k row := by
  cases hE : endCheckStep st2 with
  | some stF =>
    intro row hrow
    apply h2
    rw [← endCheckStep_rows st2 stF hE]
    exact hrow
  | none => exact ih st2 h2

/-- The inner tuple loop only ever appends rows that passed the
post-parse filter check. -/
lemma processBuffer_rows_sound (columns : List String) (flLower : List (List Char))
    (k : ℕ) :
    ∀ (fuel : ℕ) (st : SRState),
      (∀ row ∈ st.rows, rowFilterOk flLower k row) →
      ∀ row ∈ (processBuffer columns (some flLower) (some k) fuel st).rows,
        rowFilterOk flLower k row := by
  intro fuel
  induction fuel with
  | zero =>
    intro st h
    simpa [processBuffer] using h
  | succ fuel ih =>
    intro st h
    rw [processBuffer]
    cases hfind : st.buffer.findIdx? (fun c => c == '(') with
    | none => exact h
    | some ps =>
      by_cases hq : quickSkip (some flLower) (some k) st.buffer ps
      · simp only [hq, if_true]
        exact endChecksPreserve columns flLower k fuel ih _ (by simpa using h)
      · simp only [hq, if_false, Bool.false_eq_true]
        by_cases hInc : (parse_values_tuple st.buffer ps).1 ≠ [] ∧ st.inSplit = true ∧
            (parse_values_tuple st.buffer ps).1.length < columns.length
        · simp only [if_pos hInc]
          simpa using h
        · simp only [if_neg hInc]
          by_cases hFull : (parse_values_tuple st.buffer ps).1 ≠ [] ∧
              (parse_values_tuple st.buffer ps).1.length = columns.length
          · simp only [if_pos hFull]
            by_cases hKeep : fullKeep (some flLower) (some k)
                (parse_values_tuple st.buffer ps).1 = true
            · simp only [hKeep, if_true]
              refine endChecksPreserve columns flLower k fuel ih _ ?_
              intro row hrow
              simp only at hrow
              rcases List.mem_append.mp hrow with hold | hnew
              · exact h row hold
              · rw [List.mem_singleton.mp hnew]
                exact fullKeep_sound flLower k columns _ hKeep
            · simp only [hKeep, if_false, Bool.false_eq_true]
              exact endChecksPreserve columns flLower k fuel ih _ (by simpa using h)
          · simp only [if_neg hFull]
            by_cases hNe : (parse_values_tuple st.buffer ps).1 ≠ []
            · simp only [if_pos hNe]
              exact endChecksPreserve columns flLower k fuel ih _ (by simpa using h)
            · simp only [if_neg hNe]
              exact endChecksPreserve columns flLower k fuel ih _ h

/-- The line loop only ever appends rows that passed the post-parse
filter check. -/
lemma streamLines_rows_sound (columns : List String) (flLower : List (List Char))
    (k : ℕ) (insertPat : List Char) :
    ∀ (lines : List (List Char)) (st : SRState),
      (∀ row ∈ st.rows, rowFilterOk flLower k row) →
      ∀ row ∈ (streamLines columns (some flLower) (some k) insertPat lines st).rows,
        rowFilterOk flLower k row := by
  intro lines
  induction lines with
  | nil =>
    intro st h
    simpa [streamLines] using h
  | cons line rest ih =>
    intro st h
    rw [streamLines]
    cases hd : lineDispatch insertPat line st with
    | none => exact ih st h
    | some st1 =>
      have h1 : ∀ row ∈ st1.rows, rowFilterOk flLower k row := by
        rw [lineDispatch_rows insertPat line st st1 hd]
        exact h
      by_cases hb : st1.buffer ≠ []
      · simp only [if_pos hb]
        exact ih _ (processBuffer_rows_sound columns flLower k _ st1 h1)
      · simp only [if_neg hb]
        exact ih st1 h1

/-- A full 27-column submission tuple whose subverse (13th column,
index 12) is NULL. -/
def nullSubverseLine : List Char :=
  ("INSERT INTO `submission` VALUES " ++
    "(1,2,3,4,5,6,7,8,9,10,11,12,NULL,14,15,16,17,18,19,20,21,22,23,24,25,26,27);").toList

/-- C7 (counterexample): with the allow-list `[\"aww\"]`, a tuple whose
full-parse community value is NULL is yielded anyway — the filter check
`if subverse_value and ...` bypasses falsy values — so a row can be
kept whose community value matches nothing in the allow-list. -/
theorem C7_filter_match_counterexample :
    (stream_rows "submission" (some ["aww".toList]) [nullSubverseLine]).toOption.map
        (fun st => st.rows.map (fun row => row.get? 12)) =
      some [some ("subverse", SqlValue.null)] ∧
      SqlValue.null.truthy = false ∧
      (["aww".toList].map pyLower).contains (pyLower (pyStrOfSql SqlValue.null)) = false := by
  refine ⟨by decide, by decide, by decide⟩

/-- C7 (amended): whenever an allow-list is active, every row
`stream_rows` yields has a community value (from the authoritative
full tuple parse) that is either falsy — null or empty, bypassing the
filter — or matches the allow-list case-insensitively.  In particular
the cheap partial-field fast path may only skip rows early: it can
never cause a row to be kept that the full parse's filter check would
exclude, since every yielded row passes that check. -/
theorem C7_filter_soundness (table : String) (fl : List (List Char))
    (lines : List (List Char)) (columns : List String) (k : ℕ) (st : SRState)
    (hcols : columnMapsGet table = some columns)
    (hfl : fl ≠ [])
    (hk : columns.findIdx? (fun c => c == "subverse") = some k)
    (hrun : stream_rows table (some fl) lines = .ok st) :
    ∀ row ∈ st.rows, ∀ p, row.get? k = some p →
      p.2.truthy = false ∨
        (fl.map pyLower).contains (pyLower (pyStrOfSql p.2)) = true := by
  simp only [stream_rows, hcols, hk, hfl, if_neg, if_false] at hrun
  injection hrun with hst
  subst hst
  intro row hrow
  exact streamLines_rows_sound columns (fl.map pyLower) k _ lines
    ⟨[], false, false, [], 0, 0, 0⟩ (by simp) row hrow

/-- The parsed values of the witness tuple (subverse `aww`). -/
def awwVals : List SqlValue :=
  [.intV 1, .intV 2, .intV 3, .intV 4, .intV 5, .intV 6, .intV 7, .intV 8,
   .intV 9, .intV 10, .intV 11, .intV 12, .strV [ 'a', 'w', 'w' ], .intV 14,
   .intV 15, .intV 16, .intV 17, .intV 18, .intV 19, .intV 20, .intV 21,
   .intV 22, .intV 23, .intV 24, .intV 25, .intV 26, .intV 27]

/-- A full 27-column submission tuple whose subverse is `aww`. -/
def awwLine : List Char :=
  ("INSERT INTO `submission` VALUES " ++
    "(1,2,3,4,5,6,7,8,9,10,11,12,'aww',14,15,16,17,18,19,20,21,22,23,24,25,26,27);").toList

/-- C7 witness: the soundness theorem applied to a concrete run whose
one yielded row has community value `aww`. -/
theorem C7_filter_soundness_witness :
    (("subverse", SqlValue.strV [ 'a', 'w', 'w' ]) : String × SqlValue).2.truthy = false ∨
      (["aww".toList].map pyLower).contains
        (pyLower (pyStrOfSql (("subverse", SqlValue.strV [ 'a', 'w', 'w' ]) :
          String × SqlValue).2)) = true := by
  have heval : (stream_rows "submission" (some ["aww".toList]) [awwLine]).toOption.map
      (fun st => st.rows) = some [submissionColumns.zip awwVals] := by decide
  rcases hok : stream_rows "submission" (some ["aww".toList]) [awwLine] with msg | stW
  · rw [hok] at heval
    exact absurd heval (by simp [Except.toOption])
  · have hrows : stW.rows = [submissionColumns.zip awwVals] := by
      rw [hok] at heval
      simpa [Except.toOption] using heval
    refine C7_filter_soundness "submission" ["aww".toList] [awwLine] submissionColumns
      12 stW rfl (by decide) (by decide) hok (submissionColumns.zip awwVals) ?_
      ("subverse", SqlValue.strV [ 'a', 'w', 'w' ]) ?_
    · rw [hrows]
      exact List.mem_singleton_self _
    · decide

/-- C9: requesting a table other than `submission` or `comment` fails
with the `Unknown table` configuration error before any line of the
file is consumed (the error is the same for every file content and no
row is produced); the two known tables never raise it. -/
theorem C9_unknown_table_fatal (table : String) (filt : Option (List (List Char)))
    (lines : List (List Char)) :
    ((stream_rows table filt lines).isOk = true ↔
      (table = "submission" ∨ table = "comment")) ∧
    (table ≠ "submission" → table ≠ "comment" →
      stream_rows table filt lines =
        .error ("Unknown table: " ++ table ++ ". Expected: ['submission', 'comment']")) := by
  by_cases h1 : table = "submission"
  · subst h1
    refine ⟨by simp [stream_rows, columnMapsGet, Except.isOk, Except.toBool], ?_⟩
    intro hne
    exact absurd rfl hne
  · by_cases h2 : table = "comment"
    · subst h2
      refine ⟨by simp [stream_rows, columnMapsGet, Except.isOk, Except.toBool], ?_⟩
      intro _ hne
      exact absurd rfl hne
    · refine ⟨by simp [stream_rows, columnMapsGet, h1, h2, Except.isOk, Except.toBool], ?_⟩
      intro _ _
      simp [stream_rows, columnMapsGet, h1, h2]

/-- C9 witness: the table name `vote` is rejected with the
configuration error on an arbitrary (here empty) file. -/
theorem C9_unknown_table_fatal_witness :
    stream_rows "vote" none [] =
      .error ("Unknown table: " ++ "vote" ++ ". Expected: ['submission', 'comment']") :=
  (C9_unknown_table_fatal "vote" none []).2 (by decide) (by decide)

end ReddArchiver
